import Mathlib

/-!
Verification of the natural-language specification of the schedulegenie
date/time resolution and calendar-export core against the source in
`src/lib/dateUtils.ts` and `src/app/api/export-schedule/route.ts`.

The JavaScript code is shallowly embedded:

* JS strings are lists of Unicode code points (`Str := List Nat`);
  `String.prototype.trim` and `toLowerCase` are modelled for the ASCII
  range actually exercised by the parsers.
* A JS `Date` is its epoch-millisecond value (`JSDate`), always valid
  (the code checks `isValid` after every construction, so invalid dates
  are modelled by `Option JSDate` with `none`, exactly as the source
  returns `null` after every failed `isValid` check).
* The host timezone is a fixed offset of `tz` minutes east of UTC
  (local time = UTC + `tz` minutes); JS local-time accessors and
  setters (`getHours`, `setHours`, ...) are the ECMA-262 field
  formulas at that offset.  Real-world DST transitions are outside the
  model, as is the ±8.64e15 ms `Date` range limit (all dates produced
  here are far inside it).
* The `date-fns` calls (`parse`, `parseISO`, `isMatch`, `addDays`,
  `addHours`, `isValid`) are embedded by their v2 semantics: `parse`
  matches its format tokens strictly against the input (no whitespace
  skipping between tokens, trailing whitespace tolerated), validates
  each token's range, sets parsed units on the reference date and
  zeroes the units below the least significant parsed one.
-/

namespace ScheduleGenie

/-- A JS string as its list of Unicode code points. -/
abbrev Str : Type := List Nat

/-- Embed a Lean string literal as a `Str`. -/
def S (s : String) : Str := s.data.map Char.toNat

/-- JS whitespace (the code points relevant here: ASCII whitespace and NBSP),
as removed by `String.prototype.trim` and tolerated after the last format
token by date-fns `parse`. -/
def isWs (c : Nat) : Bool :=
  decide (c = 9 ∨ c = 10 ∨ c = 11 ∨ c = 12 ∨ c = 13 ∨ c = 32 ∨ c = 160)

/-- `String.prototype.trim`. -/
def jsTrim (s : Str) : Str :=
  ((s.dropWhile isWs).reverse.dropWhile isWs).reverse

/-- `String.prototype.toLowerCase` on one ASCII code point. -/
def asciiLower (c : Nat) : Nat := if 65 ≤ c ∧ c ≤ 90 then c + 32 else c

/-- ASCII decimal digit. -/
def isDigit (c : Nat) : Bool := decide (48 ≤ c ∧ c ≤ 57)

/-- Numeric value of a digit code point. -/
def digitVal (c : Nat) : Nat := c - 48

/-- A JS `Date`: its epoch-millisecond value.  Invalid dates are represented
as `none` at the `Option JSDate` type, matching the source's
`isValid`-guarded `null` returns. -/
structure JSDate where
  ms : Int
deriving DecidableEq, Repr

/-- Local clock reading at offset `tz` minutes east of UTC. -/
def localMs (tz : Int) (d : JSDate) : Int := d.ms + tz * 60000

/-- ECMA-262 `Day(t)` on the local clock: the local civil day number. -/
def dayNumber (tz : Int) (d : JSDate) : Int := localMs tz d / 86400000

/-- `Date.prototype.getDay` (0 = Sunday ... 6 = Saturday); epoch day 0
(1970-01-01) was a Thursday, hence the `+ 4`. -/
def getDay (tz : Int) (d : JSDate) : Int := (dayNumber tz d + 4) % 7

/-- `Date.prototype.getHours` (ECMA-262 `HourFromTime` of local time). -/
def getHours (tz : Int) (d : JSDate) : Int := (localMs tz d / 3600000) % 24

/-- `Date.prototype.getMinutes`. -/
def getMinutes (tz : Int) (d : JSDate) : Int := (localMs tz d / 60000) % 60

/-- `Date.prototype.getSeconds`. -/
def getSeconds (tz : Int) (d : JSDate) : Int := (localMs tz d / 1000) % 60

/-- `Date.prototype.getMilliseconds` (timezone offsets are whole minutes,
so the millisecond field needs no offset). -/
def getMilliseconds (d : JSDate) : Int := d.ms % 1000

/-- `Date.prototype.setHours(h)` keeping minutes/seconds/milliseconds:
replaces the local hour field (ECMA-262 `MakeTime` reconstruction). -/
def setHours (tz : Int) (d : JSDate) (h : Int) : JSDate :=
  ⟨d.ms + (h - getHours tz d) * 3600000⟩

/-- `Date.prototype.setMinutes(m)` keeping seconds/milliseconds. -/
def setMinutes (tz : Int) (d : JSDate) (m : Int) : JSDate :=
  ⟨d.ms + (m - getMinutes tz d) * 60000⟩

/-- `Date.prototype.setSeconds(s)` keeping milliseconds. -/
def setSeconds (tz : Int) (d : JSDate) (s : Int) : JSDate :=
  ⟨d.ms + (s - getSeconds tz d) * 1000⟩

/-- `Date.prototype.setMilliseconds`. -/
def setMilliseconds (d : JSDate) (x : Int) : JSDate :=
  ⟨d.ms + (x - getMilliseconds d)⟩

/-- date-fns `addDays` (at a fixed offset a calendar day is 86400000 ms). -/
def addDays (d : JSDate) (n : Int) : JSDate := ⟨d.ms + n * 86400000⟩

/-- date-fns `addHours`. -/
def addHours (d : JSDate) (n : Int) : JSDate := ⟨d.ms + n * 3600000⟩

/-- Proleptic-Gregorian leap year (ECMA-262 `DaysInYear`). -/
def isLeap (y : Int) : Bool := decide ((y % 4 = 0 ∧ y % 100 ≠ 0) ∨ y % 400 = 0)

/-- Days in a month of the proleptic Gregorian calendar, month `1..12`. -/
def daysInMonth (y m : Int) : Int :=
  if m = 2 then (if isLeap y then 29 else 28)
  else if m = 4 ∨ m = 6 ∨ m = 9 ∨ m = 11 then 30
  else 31

/-- Days in year `y` strictly before month `m` (month `1..12`). -/
def daysBeforeMonth (y m : Int) : Int :=
  (if m = 1 then 0 else if m = 2 then 31 else if m = 3 then 59
   else if m = 4 then 90 else if m = 5 then 120 else if m = 6 then 151
   else if m = 7 then 181 else if m = 8 then 212 else if m = 9 then 243
   else if m = 10 then 273 else if m = 11 then 304 else 334)
  + (if 3 ≤ m ∧ isLeap y then 1 else 0)

/-- ECMA-262 `DayFromYear`: epoch day number of January 1 of year `y`. -/
def dayFromYear (y : Int) : Int :=
  365 * (y - 1970) + (y - 1969) / 4 - (y - 1901) / 100 + (y - 1601) / 400

/-- Epoch day number of the civil date `(y, m, d)` (ECMA-262 `MakeDay`). -/
def daysFromCivil (y m d : Int) : Int :=
  dayFromYear y + daysBeforeMonth y m + (d - 1)

/-- The `Date` whose local civil date is `(y, m, d)` at local midnight. -/
def localMidnight (tz : Int) (y m d : Int) : JSDate :=
  ⟨daysFromCivil y m d * 86400000 - tz * 60000⟩

/-- Civil date `(year, month 1..12, day)` of an epoch day number
(the standard days-to-civil conversion used by `getUTCFullYear`
/ `getUTCMonth` / `getUTCDate`). -/
def civilFromDays (z : Int) : Int × Int × Int :=
  let zd := z + 719468
  let era := zd / 146097
  let doe := zd - era * 146097
  let yoe := (doe - doe / 1460 + doe / 36524 - doe / 146096) / 365
  let y := yoe + era * 400
  let doy := doe - (365 * yoe + yoe / 4 - yoe / 100)
  let mp := (5 * doy + 2) / 153
  let dd := doy - (153 * mp + 2) / 5 + 1
  let m := mp + (if mp < 10 then 3 else (-9 : Int))
  (y + (if m ≤ 2 then 1 else 0), m, dd)

/-- `Date.prototype.getUTCFullYear`. -/
def getUTCFullYear (d : JSDate) : Int := (civilFromDays (d.ms / 86400000)).1

/-- `Date.prototype.getUTCMonth` (0-indexed, as in JS). -/
def getUTCMonth (d : JSDate) : Int := (civilFromDays (d.ms / 86400000)).2.1 - 1

/-- `Date.prototype.getUTCDate` (day of month). -/
def getUTCDate (d : JSDate) : Int := (civilFromDays (d.ms / 86400000)).2.2

/-- `Date.prototype.getUTCHours`. -/
def getUTCHours (d : JSDate) : Int := (d.ms / 3600000) % 24

/-- `Date.prototype.getUTCMinutes`. -/
def getUTCMinutes (d : JSDate) : Int := (d.ms / 60000) % 60

/-- Local calendar year of a date (used by date-fns `parse` as the implicit
year for the `MMMM d` / `MMM d` fallback in `parseDayString`). -/
def getFullYear (tz : Int) (d : JSDate) : Int := (civilFromDays (dayNumber tz d)).1

/-!
### Day-string parsing (`parseDayString`, dateUtils.ts lines 27-73)
-/

/-- Range validation shared by date-fns `isMatch(_, 'yyyy-MM-dd')` and
`parseISO`: year positive, month 1-12, day within the month. -/
def isoMk (y m d : Int) : Option (Int × Int × Int) :=
  if 1 ≤ y ∧ 1 ≤ m ∧ m ≤ 12 ∧ 1 ≤ d ∧ d ≤ daysInMonth y m then some (y, m, d)
  else none

/-- Combined embedding of the ISO branch guards of `parseDayString`:
the regular expression `^\d{4}-\d{2}-\d{2}$`, date-fns
`isMatch(dayStr, 'yyyy-MM-dd')` (token validation: year > 0, month 1-12,
day 1..days-in-month) and `isValid(parseISO(dayStr))`.  Yields the civil
date on success. -/
def isoParse (t : Str) : Option (Int × Int × Int) :=
  match t with
  | [c1, c2, c3, c4, s1, c5, c6, s2, c7, c8] =>
    if isDigit c1 ∧ isDigit c2 ∧ isDigit c3 ∧ isDigit c4 ∧ s1 = 45 ∧
       isDigit c5 ∧ isDigit c6 ∧ s2 = 45 ∧ isDigit c7 ∧ isDigit c8 then
      isoMk
        ((1000 * digitVal c1 + 100 * digitVal c2 + 10 * digitVal c3 + digitVal c4 : Nat) : Int)
        ((10 * digitVal c5 + digitVal c6 : Nat) : Int)
        ((10 * digitVal c7 + digitVal c8 : Nat) : Int)
    else none
  | _ => none

/-- The lowercase weekday names checked by `parseDayString`
(index 0 = Sunday ... 6 = Saturday, as in the source array). -/
def dayNamesL : List Str :=
  [S "sunday", S "monday", S "tuesday", S "wednesday", S "thursday",
   S "friday", S "saturday"]

/-- `Array.prototype.indexOf`, with `-1` rendered as `none`. -/
def indexOfAux (x : Str) : List Str → Nat → Option Nat
  | [], _ => none
  | y :: rest, i => if y = x then some i else indexOfAux x rest (i + 1)

def indexOfStr (x : Str) (l : List Str) : Option Nat := indexOfAux x l 0

/-- Case-insensitive prefix match (the `/^(...)/i` prefix semantics of the
date-fns locale match patterns); `p` is given lowercase.  Returns the rest
of the string after the prefix. -/
def stripCI (p : Str) (s : Str) : Option Str :=
  if (s.take p.length).map asciiLower = p then some (s.drop p.length) else none

/-- First name in the list matching a prefix of `s` (regex alternation
takes the first alternative); returns its index and the rest. -/
def findNameIn : List Str → Nat → Str → Option (Nat × Str)
  | [], _, _ => none
  | n :: rest, i, s =>
    match stripCI n s with
    | some r => some (i, r)
    | none => findNameIn rest (i + 1) s

/-- en-US wide month names (`/^(january|...)/i`). -/
def monthNamesWide : List Str :=
  [S "january", S "february", S "march", S "april", S "may", S "june",
   S "july", S "august", S "september", S "october", S "november", S "december"]

/-- en-US abbreviated month names (`/^(jan|...)/i`). -/
def monthNamesAbbrev : List Str :=
  [S "jan", S "feb", S "mar", S "apr", S "may", S "jun",
   S "jul", S "aug", S "sep", S "oct", S "nov", S "dec"]

/-- en-US narrow month patterns (`[/^j/i, /^f/i, ...]`, first match
wins, so an initial maps to the first month with that initial). -/
def monthNamesNarrow : List Str :=
  [S "j", S "f", S "m", S "a", S "m", S "j",
   S "j", S "a", S "s", S "o", S "n", S "d"]

/-- date-fns month token matching: `MMMM` tries wide, then abbreviated,
then narrow; `MMM` tries abbreviated then narrow. -/
def matchMonth (wide : Bool) (s : Str) : Option (Nat × Str) :=
  if wide then
    match findNameIn monthNamesWide 0 s with
    | some r => some r
    | none =>
      match findNameIn monthNamesAbbrev 0 s with
      | some r => some r
      | none => findNameIn monthNamesNarrow 0 s
  else
    match findNameIn monthNamesAbbrev 0 s with
    | some r => some r
    | none => findNameIn monthNamesNarrow 0 s

/-- date-fns `parseNDigits(2)` (`/^\d{1,2}/`): one or two leading digits. -/
def take2Digits : Str → Option (Nat × Str)
  | [] => none
  | c :: rest =>
    if isDigit c then
      match rest with
      | c2 :: rest2 =>
        if isDigit c2 then some (10 * digitVal c + digitVal c2, rest2)
        else some (digitVal c, rest)
      | [] => some (digitVal c, [])
    else none

/-- date-fns `parse(dayStr, 'MMMM d' / 'MMM d', referenceDate)`: month
token, literal space, day-of-month token validated against the month in
the reference year, trailing whitespace tolerated.  Returns `(month 1..12,
day)`. -/
def parseMonthDay (wide : Bool) (refYear : Int) (s : Str) : Option (Int × Int) :=
  match matchMonth wide s with
  | none => none
  | some (mi, rest) =>
    match rest with
    | 32 :: rest2 =>
      match take2Digits rest2 with
      | none => none
      | some (d, rest3) =>
        if 1 ≤ d ∧ (d : Int) ≤ daysInMonth refYear (mi + 1) ∧ rest3.all isWs then
          some ((mi : Int) + 1, (d : Int))
        else none
    | _ => none

/-- `parseDayString` (dateUtils.ts lines 27-73): trims, then tries in
order: ISO date, `today` / `tomorrow`, weekday name (next strictly future
occurrence, a same-weekday reference jumps a full week), then the
`MMMM d` / `MMM d` fallback with the reference year. -/
def parseDayString (tz : Int) (dayStr : Str) (referenceDate : JSDate) : Option JSDate :=
  let t := jsTrim dayStr
  let today := referenceDate
  match isoParse t with
  | some (y, m, d) => some (localMidnight tz y m d)
  | none =>
    let lowerDayStr := t.map asciiLower
    if lowerDayStr = S "today" then some today
    else if lowerDayStr = S "tomorrow" then some (addDays today 1)
    else
      match indexOfStr lowerDayStr dayNamesL with
      | some dayIndex =>
        let todayIndex := getDay tz today
        let daysToAdd := (dayIndex : Int) - todayIndex
        let daysToAdd := if daysToAdd ≤ 0 then daysToAdd + 7 else daysToAdd
        some (addDays today daysToAdd)
      | none =>
        let refYear := getFullYear tz referenceDate
        match parseMonthDay true refYear t with
        | some (m, d) => some (localMidnight tz refYear m d)
        | none =>
          match parseMonthDay false refYear t with
          | some (m, d) => some (localMidnight tz refYear m d)
          | none => none

/-!
### Time-string parsing (`parseTimeString` / `parseSingleTime`,
dateUtils.ts lines 82-141)
-/

/-- The `{start, end}` result record of the time parser (the source's
`ParsedTimeResult`; the `end` field is named `stop` here because `end` is
a Lean keyword). -/
structure ParsedTimeResult where
  start : Option JSDate
  stop : Option JSDate
deriving DecidableEq, Repr

/-- date-fns `a` day-period token matching: abbreviated `/^(AM|PM|...)/i`
first, then narrow `/^(a|p|...)/i`.  Returns `isPM` and the rest. -/
def parseMeridiem (s : Str) : Option (Bool × Str) :=
  match stripCI (S "am") s with
  | some r => some (false, r)
  | none =>
    match stripCI (S "pm") s with
    | some r => some (true, r)
    | none =>
      match s with
      | c :: r =>
        if asciiLower c = 97 then some (false, r)
        else if asciiLower c = 112 then some (true, r)
        else none
      | [] => none

/-- Combination of the date-fns day-period and 12-hour-clock setters:
`h` is 1..12, the result is the 24-hour clock hour. -/
def hourTo24 (h : Nat) (pm : Bool) : Nat :=
  if pm then (if h < 12 then h + 12 else h)
  else (if h = 12 then 0 else h)

/-- Format `'h:mm a'`: 12-hour hour, colon, minutes, one literal space,
day period; trailing whitespace tolerated. -/
def fmtHmmA (s : Str) : Option (Nat × Nat) :=
  match take2Digits s with
  | none => none
  | some (h, r1) =>
    if 1 ≤ h ∧ h ≤ 12 then
      match r1 with
      | 58 :: r2 =>
        match take2Digits r2 with
        | none => none
        | some (mn, r3) =>
          if mn ≤ 59 then
            match r3 with
            | 32 :: r4 =>
              match parseMeridiem r4 with
              | some (pm, r5) =>
                if r5.all isWs then some (hourTo24 h pm, mn) else none
              | none => none
            | _ => none
          else none
      | _ => none
    else none

/-- Format `'ha'`: 12-hour hour directly followed by the day period
(no whitespace between tokens); minutes are zeroed because the hour
setter resets the units below it. -/
def fmtHa (s : Str) : Option (Nat × Nat) :=
  match take2Digits s with
  | none => none
  | some (h, r1) =>
    if 1 ≤ h ∧ h ≤ 12 then
      match parseMeridiem r1 with
      | some (pm, r2) =>
        if r2.all isWs then some (hourTo24 h pm, 0) else none
      | none => none
    else none

/-- Shared token skeleton of the colon formats (`digits ':' digits`,
trailing whitespace tolerated), before hour-range validation. -/
def colonDigits (s : Str) : Option (Nat × Nat) :=
  match take2Digits s with
  | none => none
  | some (h, r1) =>
    match r1 with
    | 58 :: r2 =>
      match take2Digits r2 with
      | none => none
      | some (mn, r3) => if r3.all isWs then some (h, mn) else none
    | _ => none

/-- Format `'HH:mm'`: 24-hour clock, hour validated 0..23. -/
def fmtHHmm (s : Str) : Option (Nat × Nat) :=
  match colonDigits s with
  | none => none
  | some (h, mn) => if h ≤ 23 ∧ mn ≤ 59 then some (h, mn) else none

/-- Format `'h:mm'`: 12-hour clock without a day period.  The date-fns
12-hour setter infers AM/PM from the hours already on the date being
built, i.e. from the reference date (`new Date()` in `parseSingleTime`) —
this is the one ambient-clock-dependent format, and it is unreachable
because every string it accepts is already accepted by `'HH:mm'`. -/
def fmtHmm (s : Str) (nowHours : Int) : Option (Nat × Nat) :=
  match colonDigits s with
  | none => none
  | some (h, mn) =>
    if 1 ≤ h ∧ h ≤ 12 ∧ mn ≤ 59 then
      some ((if 12 ≤ nowHours ∧ h < 12 then h + 12
             else if nowHours < 12 ∧ h = 12 then 0 else h), mn)
    else none

/-- Format `'H:mm'`: 24-hour clock, hour validated 0..23 (same acceptance
as `'HH:mm'`, hence also unreachable). -/
def fmtH24mm (s : Str) : Option (Nat × Nat) :=
  match colonDigits s with
  | none => none
  | some (h, mn) => if h ≤ 23 ∧ mn ≤ 59 then some (h, mn) else none

/-- The format cascade of `parseSingleTime`
(`['h:mm a', 'ha', 'HH:mm', 'h:mm', 'H:mm']`, first success wins),
yielding the parsed 24-hour clock `(hour, minute)`. -/
def tokenParse (s : Str) (nowHours : Int) : Option (Nat × Nat) :=
  match fmtHmmA s with
  | some v => some v
  | none =>
    match fmtHa s with
    | some v => some v
    | none =>
      match fmtHHmm s with
      | some v => some v
      | none =>
        match fmtHmm s nowHours with
        | some v => some v
        | none => fmtH24mm s

/-- The date produced by date-fns `parse(timePart, fmt, now)` for a
time-only format: the local calendar day of `now` with the parsed time of
day (units below the parsed ones zeroed by the setters). -/
def dfTimeResult (tz : Int) (now : JSDate) (h mn : Int) : JSDate :=
  ⟨86400000 * dayNumber tz now + h * 3600000 + mn * 60000 - tz * 60000⟩

/-- `parseSingleTime` (dateUtils.ts lines 120-140): parse `timePart`
against the format cascade with `new Date()` (modelled by `now`) as dummy
reference, then clone `date` and set its local hours/minutes from the
parsed result, zeroing seconds and milliseconds. -/
def parseSingleTime (tz : Int) (timePart : Str) (date : JSDate) (now : JSDate) :
    Option JSDate :=
  match tokenParse timePart (getHours tz now) with
  | none => none
  | some (h, mn) =>
    let parsedTime := dfTimeResult tz now h mn
    let f1 := setHours tz date (getHours tz parsedTime)
    let f2 := setMinutes tz f1 (getMinutes tz parsedTime)
    let f3 := setSeconds tz f2 0
    let f4 := setMilliseconds f3 0
    some f4

/-- First `-` at index ≥ 1 (the lazy left side `(.+?)` of
`/^(.+?)\s*-\s*(.+)$/` needs at least one character before the dash). -/
def findDash : Str → Nat → Option Nat
  | [], _ => none
  | c :: rest, i =>
    if c = 45 ∧ 1 ≤ i then some i else findDash rest (i + 1)

/-- The range-detection regex `/^(.+?)\s*-\s*(.+)$/` of `parseTimeString`:
matches iff some dash sits at an index in `[1, length-2]`; the lazy left
capture splits at the first such dash, and both captures are `.trim()`ed
by the code immediately afterwards, so the groups are modelled trimmed. -/
def rangeSplit (s : Str) : Option (Str × Str) :=
  match findDash s 0 with
  | some i =>
    if i + 1 < s.length then some (jsTrim (s.take i), jsTrim (s.drop (i + 1)))
    else none
  | none => none

/-- `parseTimeString` (dateUtils.ts lines 82-117): falsy/empty guard,
trim, range split with end-after-start validation and one-hour fallback
from the left time, then the whole-string single-time fallback with a
one-hour default duration. -/
def parseTimeString (tz : Int) (timeStr : Option Str) (date : JSDate) (now : JSDate) :
    ParsedTimeResult :=
  match timeStr with
  | none => ⟨none, none⟩
  | some s0 =>
    if s0 = [] then ⟨none, none⟩
    else
      let s := jsTrim s0
      let single : ParsedTimeResult :=
        match parseSingleTime tz s date now with
        | some st => ⟨some st, some (addHours st 1)⟩
        | none => ⟨none, none⟩
      match rangeSplit s with
      | some (startTimeStr, endTimeStr) =>
        match parseSingleTime tz startTimeStr date now with
        | some st =>
          match parseSingleTime tz endTimeStr date now with
          | some en =>
            if st.ms < en.ms then ⟨some st, some en⟩
            else ⟨some st, some (addHours st 1)⟩
          | none => ⟨some st, some (addHours st 1)⟩
        | none => single
      | none => single

/-!
### `parseTaskDateTime`, `formatForICS` and the export handler
-/

/-- The task record (`types/task.ts`); `time` and `notes` are optional to
model the `null`/`undefined`/missing values tolerated by the parser. -/
structure Task where
  taskId : Str
  content : Str
  day : Str
  time : Option Str
  isCompleted : Bool
  notes : Option Str
deriving DecidableEq, Repr

/-- `parseTaskDateTime` (dateUtils.ts lines 149-157): resolve the day,
fail to `{null, null}` when that fails, otherwise resolve the time on the
resolved day. -/
def parseTaskDateTime (tz : Int) (task : Task) (referenceDate : JSDate) (now : JSDate) :
    ParsedTimeResult :=
  match parseDayString tz task.day referenceDate with
  | none => ⟨none, none⟩
  | some specificDate => parseTimeString tz task.time specificDate now

/-- `formatForICS` (dateUtils.ts lines 177-186): `null` for a null or
invalid date, otherwise the UTC field array
`[year, month+1, day, hours, minutes]`. -/
def formatForICS : Option JSDate → Option (List Int)
  | none => none
  | some d =>
    some [getUTCFullYear d, getUTCMonth d + 1, getUTCDate d,
          getUTCHours d, getUTCMinutes d]

/-- One calendar entry as pushed by the export handler. -/
structure IcsEvent where
  title : Str
  startArr : List Int
  endArr : List Int
  description : Option Str
  uid : Str
deriving DecidableEq, Repr

/-- The per-task body of the `userSchedule.tasks.forEach` loop in
`export-schedule/route.ts` (lines 36-57): an event is produced exactly
when `start`/`end` resolved and both ICS arrays formatted; the
description is `task.notes || undefined`. -/
def taskToEvent (tz : Int) (referenceDate now : JSDate) (task : Task) :
    Option IcsEvent :=
  let r := parseTaskDateTime tz task referenceDate now
  match r.start, r.stop with
  | some st, some en =>
    match formatForICS (some st), formatForICS (some en) with
    | some startArr, some endArr =>
      some ⟨task.content, startArr, endArr,
            (match task.notes with
             | some n => if n = [] then none else some n
             | none => none),
            task.taskId⟩
    | _, _ => none
  | _, _ => none

/-- One iteration of the export handler's `forEach` loop: push the
task's event onto the accumulated list, or keep it unchanged when the
task was skipped. -/
def pushEvent (tz : Int) (referenceDate now : JSDate) (acc : List IcsEvent)
    (t : Task) : List IcsEvent :=
  match taskToEvent tz referenceDate now t with
  | some e => acc ++ [e]
  | none => acc

/-- The event list built by the export handler: the `forEach` loop pushes
onto `events` in task order. -/
def buildEvents (tz : Int) (referenceDate now : JSDate) (tasks : List Task) :
    List IcsEvent :=
  tasks.foldl (pushEvent tz referenceDate now) []

/-!
### Basic lemmas about the string model
-/

lemma dropWhile_eq_self_of {l : Str} (h : ∀ c ∈ l, isWs c = false) :
    l.dropWhile isWs = l := by
  cases l with
  | nil => rfl
  | cons a t => simp [List.dropWhile, h a (by simp)]

lemma jsTrim_eq_self {s : Str} (h : ∀ c ∈ s, isWs c = false) : jsTrim s = s := by
  unfold jsTrim
  rw [dropWhile_eq_self_of h, dropWhile_eq_self_of (by simp_all), List.reverse_reverse]

lemma isWs_eq_false_of_lower {c : Nat} (h1 : 97 ≤ asciiLower c)
    (h2 : asciiLower c ≤ 122) : isWs c = false := by
  unfold asciiLower at h1 h2
  by_cases hc : 65 ≤ c ∧ c ≤ 90 <;> simp only [hc, if_true, if_false, ite_true, ite_false] at h1 h2 <;>
    (simp only [isWs, decide_eq_false_iff_not]; omega)

lemma jsTrim_of_lower_eq {s w : Str} (hs : s.map asciiLower = w)
    (hw : ∀ v ∈ w, 97 ≤ v ∧ v ≤ 122) : jsTrim s = s := by
  refine jsTrim_eq_self (fun c hc => ?_)
  have hmem : asciiLower c ∈ w := hs ▸ List.mem_map_of_mem asciiLower hc
  obtain ⟨h1, h2⟩ := hw _ hmem
  exact isWs_eq_false_of_lower h1 h2

lemma isoParse_eq_none_of_length {t : Str} (h : t.length ≠ 10) :
    isoParse t = none := by
  unfold isoParse
  split
  · simp at h
  · rfl

/-!
### C1: weekday-name resolution
-/

/-- The `daysToAdd` computed by the weekday branch of `parseDayString`
for target weekday index `i`. -/
def weekdayDelta (tz : Int) (i : Nat) (R : JSDate) : Int :=
  if (i : Int) - getDay tz R ≤ 0 then (i : Int) - getDay tz R + 7
  else (i : Int) - getDay tz R

lemma addDays_dayNumber (tz : Int) (R : JSDate) (k : Int) :
    dayNumber tz (addDays R k) = dayNumber tz R + k := by
  show (R.ms + k * 86400000 + tz * 60000) / 86400000 = (R.ms + tz * 60000) / 86400000 + k
  omega

lemma addDays_ms (R : JSDate) (k : Int) : (addDays R k).ms = R.ms + k * 86400000 := rfl

lemma weekdayDelta_spec (tz : Int) (i : Nat) (hi : i < 7) (R : JSDate) :
    1 ≤ weekdayDelta tz i R ∧ weekdayDelta tz i R ≤ 7 ∧
    getDay tz (addDays R (weekdayDelta tz i R)) = (i : Int) ∧
    R.ms < (addDays R (weekdayDelta tz i R)).ms ∧
    (getDay tz R = (i : Int) → weekdayDelta tz i R = 7) := by
  have hd := addDays_dayNumber tz R (weekdayDelta tz i R)
  unfold getDay
  rw [hd, addDays_ms]
  unfold weekdayDelta getDay
  split <;> refine ⟨by omega, by omega, by omega, by omega, fun h => by omega⟩

lemma parseDayString_weekday (tz : Int) (s : Str) (R : JSDate) (w : Str) (i : Nat)
    (hs : s.map asciiLower = w) (htrim : jsTrim s = s) (hiso : isoParse s = none)
    (ht1 : (w = S "today") = False) (ht2 : (w = S "tomorrow") = False)
    (hidx : indexOfStr w dayNamesL = some i) :
    parseDayString tz s R = some (addDays R (weekdayDelta tz i R)) := by
  simp only [parseDayString, htrim, hiso, hs, ht1, ht2, hidx, if_false]
  rfl

/-- C1: for every weekday name (any letter case) and reference date `R`,
`parseDayString` returns `R` shifted by the `daysToAdd` of the source,
which lies in `[1, 7]`, lands on the requested weekday, is strictly after
`R`, and equals exactly 7 when `R` is already on that weekday (the
next-week policy of dateUtils.ts lines 48-59). -/
theorem weekday_next_occurrence (tz : Int) (s : Str) (i : Nat) (hi : i < 7)
    (R : JSDate) (hs : s.map asciiLower = dayNamesL.getD i []) :
    parseDayString tz s R = some (addDays R (weekdayDelta tz i R)) ∧
    1 ≤ weekdayDelta tz i R ∧ weekdayDelta tz i R ≤ 7 ∧
    getDay tz (addDays R (weekdayDelta tz i R)) = (i : Int) ∧
    R.ms < (addDays R (weekdayDelta tz i R)).ms ∧
    (getDay tz R = (i : Int) → weekdayDelta tz i R = 7) := by
  have hw : ∀ v ∈ dayNamesL.getD i [], 97 ≤ v ∧ v ≤ 122 := by
    interval_cases i <;> decide
  have htrim : jsTrim s = s := jsTrim_of_lower_eq hs hw
  have hlen : s.length = (dayNamesL.getD i []).length := by
    rw [← List.length_map s asciiLower, hs]
  refine ⟨?_, weekdayDelta_spec tz i hi R⟩
  interval_cases i <;>
    exact parseDayString_weekday tz s R _ _ hs htrim
      (isoParse_eq_none_of_length (by rw [hlen]; decide))
      (eq_false (by decide)) (eq_false (by decide)) (by decide)

/-- Witness for C1 at the concrete input `"Friday"` against the epoch
reference date (a Thursday). -/
theorem weekday_next_occurrence_w :
    parseDayString 0 (S "Friday") ⟨0⟩ = some (addDays ⟨0⟩ (weekdayDelta 0 5 ⟨0⟩)) ∧
    1 ≤ weekdayDelta 0 5 ⟨0⟩ ∧ weekdayDelta 0 5 ⟨0⟩ ≤ 7 ∧
    getDay 0 (addDays ⟨0⟩ (weekdayDelta 0 5 ⟨0⟩)) = ((5 : Nat) : Int) ∧
    (⟨0⟩ : JSDate).ms < (addDays ⟨0⟩ (weekdayDelta 0 5 ⟨0⟩)).ms ∧
    (getDay 0 ⟨0⟩ = ((5 : Nat) : Int) → weekdayDelta 0 5 ⟨0⟩ = 7) :=
  weekday_next_occurrence 0 (S "Friday") 5 (by decide) ⟨0⟩ (by decide)

/-!
### C5: ISO date strings resolve to themselves
-/

/-- The ten-character `YYYY-MM-DD` rendering of a civil date. -/
def isoRender (y m d : Nat) : Str :=
  [48 + y / 1000, 48 + y / 100 % 10, 48 + y / 10 % 10, 48 + y % 10, 45,
   48 + m / 10, 48 + m % 10, 45, 48 + d / 10, 48 + d % 10]

lemma daysInMonth_bounds (y m : Int) :
    28 ≤ daysInMonth y m ∧ daysInMonth y m ≤ 31 := by
  unfold daysInMonth
  repeat' split
  all_goals omega

lemma isoRender_not_ws (y m d : Nat) (hy2 : y ≤ 9999) (hm2 : m ≤ 12)
    (hd31 : d ≤ 31) : ∀ c ∈ isoRender y m d, isWs c = false := by
  intro c hc
  simp [isoRender] at hc
  rcases hc with rfl | rfl | rfl | rfl | rfl | rfl | rfl | rfl | rfl | rfl <;>
    (simp only [isWs, decide_eq_false_iff_not]; omega)

lemma isoParse_isoRender (y m d : Nat) (hy1 : 1 ≤ y) (hy2 : y ≤ 9999)
    (hm1 : 1 ≤ m) (hm2 : m ≤ 12) (hd1 : 1 ≤ d)
    (hd2 : (d : Int) ≤ daysInMonth y m) :
    isoParse (isoRender y m d) = some ((y : Int), (m : Int), (d : Int)) := by
  have hdm := daysInMonth_bounds (y : Int) (m : Int)
  have hd31 : d ≤ 31 := by omega
  simp only [isoRender, isoParse]
  rw [if_pos]
  · have e1 : 1000 * digitVal (48 + y / 1000) + 100 * digitVal (48 + y / 100 % 10) +
        10 * digitVal (48 + y / 10 % 10) + digitVal (48 + y % 10) = y := by
      unfold digitVal; omega
    have e2 : 10 * digitVal (48 + m / 10) + digitVal (48 + m % 10) = m := by
      unfold digitVal; omega
    have e3 : 10 * digitVal (48 + d / 10) + digitVal (48 + d % 10) = d := by
      unfold digitVal; omega
    rw [e1, e2, e3]
    unfold isoMk
    rw [if_pos ⟨by omega, by omega, by omega, by omega, hd2⟩]
  · refine ⟨?_, ?_, ?_, ?_, ?_, ?_, ?_, ?_, ?_, ?_⟩ <;>
      first
        | trivial
        | (simp only [isDigit, decide_eq_true_eq]; omega)

/-- C5: every calendar-valid `YYYY-MM-DD` string resolves to the local
midnight of exactly that civil date, independently of the reference date
(dateUtils.ts lines 31-37). -/
theorem iso_date_identity (tz : Int) (y m d : Nat) (R R2 : JSDate)
    (hy1 : 1 ≤ y) (hy2 : y ≤ 9999) (hm1 : 1 ≤ m) (hm2 : m ≤ 12)
    (hd1 : 1 ≤ d) (hd2 : (d : Int) ≤ daysInMonth y m) :
    parseDayString tz (isoRender y m d) R = some (localMidnight tz y m d) ∧
    parseDayString tz (isoRender y m d) R = parseDayString tz (isoRender y m d) R2 := by
  have hdm := daysInMonth_bounds (y : Int) (m : Int)
  have htrim := jsTrim_eq_self (isoRender_not_ws y m d hy2 hm2 (by omega))
  have hiso := isoParse_isoRender y m d hy1 hy2 hm1 hm2 hd1 hd2
  constructor <;> simp only [parseDayString, htrim, hiso]

/-- Witness for C5 at `"2025-04-12"` with two different reference dates. -/
theorem iso_date_identity_w :
    parseDayString 0 (isoRender 2025 4 12) ⟨0⟩ = some (localMidnight 0 2025 4 12) ∧
    parseDayString 0 (isoRender 2025 4 12) ⟨0⟩ =
      parseDayString 0 (isoRender 2025 4 12) ⟨86400000⟩ :=
  iso_date_identity 0 2025 4 12 ⟨0⟩ ⟨86400000⟩ (by decide) (by decide) (by decide)
    (by decide) (by decide) (by decide)

/-!
### C2: range times whose right side is not after the left
-/

/-- Counterexample to C2: for `"10:00 - 9:00"` both sides parse and the
right result (9:00) is not after the left result (10:00), yet
`parseTimeString` still returns the pair built from the left time,
`{start: 10:00, end: 11:00}` — the `else if (startDetails.start)` branch
of dateUtils.ts lines 101-104 fires whenever the left side parses, not
only when the right side failed to parse.  (36000000 ms = 10:00,
39600000 ms = 11:00 on the epoch day.) -/
theorem range_invalid_end_cx :
    parseTimeString 0 (some (S "10:00 - 9:00")) ⟨0⟩ ⟨0⟩ =
      ⟨some ⟨36000000⟩, some ⟨39600000⟩⟩ := by decide

/-- C2 (amended): when the range pattern matches and the left side
parses, a right side that parses to a time not strictly after the left
one is treated exactly like a right side that fails to parse: the result
is the synthetic one-hour interval from the left time (the whole-string
fallback is not reached). -/
theorem range_left_fallback (tz : Int) (s : Str) (D now : JSDate)
    (lft rgt : Str) (stL stR : JSDate)
    (hr : rangeSplit (jsTrim s) = some (lft, rgt))
    (hl : parseSingleTime tz lft D now = some stL)
    (hrp : parseSingleTime tz rgt D now = some stR)
    (hle : stR.ms ≤ stL.ms) :
    parseTimeString tz (some s) D now = ⟨some stL, some (addHours stL 1)⟩ := by
  have hne : (s = []) = False := by
    refine eq_false (fun h => ?_)
    rw [h] at hr
    exact Option.noConfusion hr
  simp only [parseTimeString, hne, if_false, hr, hl, hrp]
  rw [if_neg (by omega)]

/-- Witness for the amended C2 at `"10:00 - 9:00"` on the epoch day. -/
theorem range_left_fallback_w :
    parseTimeString 0 (some (S "10:00 - 9:00")) ⟨0⟩ ⟨0⟩ =
      ⟨some ⟨36000000⟩, some (addHours ⟨36000000⟩ 1)⟩ :=
  range_left_fallback 0 (S "10:00 - 9:00") ⟨0⟩ ⟨0⟩ (S "10:00") (S "9:00")
    ⟨36000000⟩ ⟨32400000⟩ (by decide) (by decide) (by decide) (by decide)

/-!
### Structure of the single-time format cascade
-/

lemma ms_mk (x : Int) : (JSDate.mk x).ms = x := rfl

lemma hourTo24_le (h : Nat) (pm : Bool) (h1 : 1 ≤ h) (h2 : h ≤ 12) :
    hourTo24 h pm ≤ 23 := by
  unfold hourTo24
  repeat' split
  all_goals omega

lemma fmtHmmA_bounds {s : Str} {h mn : Nat} (hp : fmtHmmA s = some (h, mn)) :
    h ≤ 23 ∧ mn ≤ 59 := by
  unfold fmtHmmA at hp
  repeat' split at hp
  all_goals first
    | (simp only [Option.some.injEq, Prod.mk.injEq] at hp
       obtain ⟨rfl, rfl⟩ := hp
       constructor <;> (try unfold hourTo24) <;> (repeat' split) <;> omega)
    | simp at hp

lemma fmtHa_bounds {s : Str} {h mn : Nat} (hp : fmtHa s = some (h, mn)) :
    h ≤ 23 ∧ mn ≤ 59 := by
  unfold fmtHa at hp
  repeat' split at hp
  all_goals first
    | (simp only [Option.some.injEq, Prod.mk.injEq] at hp
       obtain ⟨rfl, rfl⟩ := hp
       constructor <;> (try unfold hourTo24) <;> (repeat' split) <;> omega)
    | simp at hp

lemma fmtHHmm_bounds {s : Str} {h mn : Nat} (hp : fmtHHmm s = some (h, mn)) :
    h ≤ 23 ∧ mn ≤ 59 := by
  unfold fmtHHmm at hp
  repeat' split at hp
  all_goals first
    | (simp only [Option.some.injEq, Prod.mk.injEq] at hp
       obtain ⟨rfl, rfl⟩ := hp
       constructor <;> omega)
    | simp at hp

lemma fmtHmm_bounds {s : Str} {nh : Int} {h mn : Nat}
    (hp : fmtHmm s nh = some (h, mn)) : h ≤ 23 ∧ mn ≤ 59 := by
  unfold fmtHmm at hp
  repeat' split at hp
  all_goals first
    | (simp only [Option.some.injEq, Prod.mk.injEq] at hp
       obtain ⟨rfl, rfl⟩ := hp
       constructor <;> (repeat' split) <;> omega)
    | simp at hp

lemma fmtH24mm_bounds {s : Str} {h mn : Nat} (hp : fmtH24mm s = some (h, mn)) :
    h ≤ 23 ∧ mn ≤ 59 := by
  unfold fmtH24mm at hp
  repeat' split at hp
  all_goals first
    | (simp only [Option.some.injEq, Prod.mk.injEq] at hp
       obtain ⟨rfl, rfl⟩ := hp
       constructor <;> omega)
    | simp at hp

/-- The `'h:mm'` format is masked by `'HH:mm'`: every string its token
skeleton accepts with a 1-12 hour is already accepted by `'HH:mm'`. -/
lemma fmtHmm_none_of_fmtHHmm_none {s : Str} {nh : Int}
    (h3 : fmtHHmm s = none) : fmtHmm s nh = none := by
  unfold fmtHHmm at h3
  unfold fmtHmm
  split at h3
  · rename_i heq
    simp [heq]
  · rename_i h0 mn0 heq
    have hno : ¬(h0 ≤ 23 ∧ mn0 ≤ 59) := by
      intro hcond
      rw [if_pos hcond] at h3
      cases h3
    try simp only [heq]
    rw [if_neg (fun hc2 => hno (by omega))]

lemma tokenParse_nowHours (s : Str) (a b : Int) :
    tokenParse s a = tokenParse s b := by
  unfold tokenParse
  cases h1 : fmtHmmA s with
  | some v => rfl
  | none =>
    cases h2 : fmtHa s with
    | some v => rfl
    | none =>
      cases h3 : fmtHHmm s with
      | some v => rfl
      | none =>
        rw [fmtHmm_none_of_fmtHHmm_none h3, fmtHmm_none_of_fmtHHmm_none h3]

lemma tokenParse_bounds {s : Str} {nh : Int} {h mn : Nat}
    (hp : tokenParse s nh = some (h, mn)) : h ≤ 23 ∧ mn ≤ 59 := by
  unfold tokenParse at hp
  repeat' split at hp
  all_goals first
    | (simp only [Option.some.injEq] at hp
       subst hp
       first
         | exact fmtHmmA_bounds (by assumption)
         | exact fmtHa_bounds (by assumption)
         | exact fmtHHmm_bounds (by assumption)
         | exact fmtHmm_bounds (by assumption))
    | exact fmtH24mm_bounds hp
    | simp at hp

/-- The whole setter chain of `parseSingleTime`, evaluated: cloning
`date` and setting hours/minutes and zero seconds/milliseconds yields the
local day of `date` at `h:mn:00.000`. -/
lemma setChain_ms (tz : Int) (date : JSDate) (h mn : Int) :
    setMilliseconds (setSeconds tz (setMinutes tz (setHours tz date h) mn) 0) 0 =
      dfTimeResult tz date h mn := by
  unfold setMilliseconds setSeconds setMinutes setHours getMilliseconds getSeconds
    getMinutes getHours dfTimeResult dayNumber localMs
  simp only [ms_mk, JSDate.mk.injEq]
  omega

/-- Evaluation of `parseSingleTime`: the dummy current date `now` cancels
out — the result is `none` exactly when the format cascade rejects, and
otherwise the resolved day of `date` at the parsed wall-clock time with
seconds and milliseconds zero. -/
lemma parseSingleTime_eq (tz : Int) (s : Str) (date now : JSDate) :
    parseSingleTime tz s date now =
      match tokenParse s 0 with
      | none => none
      | some (h, mn) => some (dfTimeResult tz date h mn) := by
  unfold parseSingleTime
  rw [tokenParse_nowHours s (getHours tz now) 0]
  cases hp : tokenParse s 0 with
  | none => rfl
  | some v =>
    obtain ⟨h, mn⟩ := v
    obtain ⟨h23, mn59⟩ := tokenParse_bounds hp
    have hH : getHours tz (dfTimeResult tz now (h : Int) (mn : Int)) = (h : Int) := by
      unfold getHours dfTimeResult localMs
      rw [ms_mk]
      omega
    have hM : getMinutes tz (dfTimeResult tz now (h : Int) (mn : Int)) = (mn : Int) := by
      unfold getMinutes dfTimeResult localMs
      rw [ms_mk]
      omega
    show some (setMilliseconds (setSeconds tz (setMinutes tz
        (setHours tz date (getHours tz (dfTimeResult tz now (h : Int) (mn : Int))))
        (getMinutes tz (dfTimeResult tz now (h : Int) (mn : Int)))) 0) 0) =
      some (dfTimeResult tz date (h : Int) (mn : Int))
    rw [hH, hM]
    exact congrArg some (setChain_ms tz date (h : Int) (mn : Int))

/-!
### C6: single-time strings
-/

/-- Counterexample to C6: `"9 AM"` (hour, space, meridiem) is rejected —
the format list of `parseSingleTime` is `['h:mm a','ha','HH:mm','h:mm','H:mm']`
with no `'h a'` entry, and date-fns `parse` does not skip the space before
`AM` for the `'ha'` format — while the spaceless `"9AM"` is accepted
(9:00-10:00 on the epoch day). -/
theorem single_time_space_cx :
    parseTimeString 0 (some (S "9 AM")) ⟨0⟩ ⟨0⟩ = ⟨none, none⟩ ∧
    parseTimeString 0 (some (S "9AM")) ⟨0⟩ ⟨0⟩ =
      ⟨some ⟨32400000⟩, some ⟨36000000⟩⟩ := by decide

/-- C6 (amended): every single-time string accepted by the format cascade
`'h:mm a', 'ha', 'HH:mm', 'h:mm', 'H:mm'` (tried in that order, first
success wins; `'ha'` takes `9AM` but not `9 AM`) resolves on day `D` to a
start at the parsed hour and minute of `D` with seconds and milliseconds
zero, and an end exactly 60 minutes later. -/
theorem single_time_formats (tz : Int) (s : Str) (D now : JSDate) (h mn : Nat)
    (hts : jsTrim s = s) (hnr : rangeSplit s = none)
    (hp : tokenParse s 0 = some (h, mn)) :
    parseTimeString tz (some s) D now =
      ⟨some (dfTimeResult tz D h mn), some (addHours (dfTimeResult tz D h mn) 1)⟩ ∧
    getHours tz (dfTimeResult tz D h mn) = h ∧
    getMinutes tz (dfTimeResult tz D h mn) = mn ∧
    getSeconds tz (dfTimeResult tz D h mn) = 0 ∧
    getMilliseconds (dfTimeResult tz D h mn) = 0 ∧
    dayNumber tz (dfTimeResult tz D h mn) = dayNumber tz D ∧
    (addHours (dfTimeResult tz D h mn) 1).ms - (dfTimeResult tz D h mn).ms = 3600000 := by
  obtain ⟨h23, mn59⟩ := tokenParse_bounds hp
  have hne : (s = []) = False := by
    refine eq_false (fun hh => ?_)
    rw [hh] at hp
    exact Option.noConfusion hp
  refine ⟨?_, ?_, ?_, ?_, ?_, ?_, ?_⟩
  · simp only [parseTimeString, hne, if_false, hts, hnr, parseSingleTime_eq, hp]
  · unfold getHours dfTimeResult localMs
    rw [ms_mk]
    omega
  · unfold getMinutes dfTimeResult localMs
    rw [ms_mk]
    omega
  · unfold getSeconds dfTimeResult localMs
    rw [ms_mk]
    omega
  · unfold getMilliseconds dfTimeResult
    rw [ms_mk]
    omega
  · unfold dfTimeResult dayNumber localMs
    rw [ms_mk]
    omega
  · unfold addHours dfTimeResult
    rw [ms_mk]
    omega

/-- Witness for the amended C6 at `"2:00 PM"` (hour 14, minute 0) on the
epoch day: the spec's own example, with `end - start` exactly one hour. -/
theorem single_time_formats_w :
    parseTimeString 0 (some (S "2:00 PM")) ⟨0⟩ ⟨0⟩ =
      ⟨some (dfTimeResult 0 ⟨0⟩ 14 0), some (addHours (dfTimeResult 0 ⟨0⟩ 14 0) 1)⟩ ∧
    getHours 0 (dfTimeResult 0 ⟨0⟩ 14 0) = 14 ∧
    getMinutes 0 (dfTimeResult 0 ⟨0⟩ 14 0) = 0 ∧
    getSeconds 0 (dfTimeResult 0 ⟨0⟩ 14 0) = 0 ∧
    getMilliseconds (dfTimeResult 0 ⟨0⟩ 14 0) = 0 ∧
    dayNumber 0 (dfTimeResult 0 ⟨0⟩ 14 0) = dayNumber 0 ⟨0⟩ ∧
    (addHours (dfTimeResult 0 ⟨0⟩ 14 0) 1).ms - (dfTimeResult 0 ⟨0⟩ 14 0).ms = 3600000 :=
  single_time_formats 0 (S "2:00 PM") ⟨0⟩ ⟨0⟩ 14 0 (by decide) (by decide) (by decide)

/-!
### C9: determinism in the ambient clock
-/

lemma parseTimeString_now (tz : Int) (t : Option Str) (d now now2 : JSDate) :
    parseTimeString tz t d now = parseTimeString tz t d now2 := by
  cases t with
  | none => rfl
  | some s0 =>
    by_cases h0 : s0 = []
    · simp [parseTimeString, h0]
    · simp only [parseTimeString, eq_false h0, if_false, parseSingleTime_eq]

/-- C9: `parseTaskDateTime` is deterministic — its value does not depend
on the ambient wall clock `now` that `parseSingleTime` internally parses
against (`new Date()` in dateUtils.ts line 126): the date part of that
dummy reference is discarded and the unreachable `'h:mm'` format is the
only clock-sensitive one. -/
theorem deterministic_resolution (tz : Int) (task : Task) (R now now2 : JSDate) :
    parseTaskDateTime tz task R now = parseTaskDateTime tz task R now2 := by
  unfold parseTaskDateTime
  cases parseDayString tz task.day R with
  | none => rfl
  | some d => exact parseTimeString_now tz task.time d now now2

/-!
### C3 and C4: shape of every `parseTaskDateTime` result
-/

lemma parseTimeString_cases (tz : Int) (t : Option Str) (d now : JSDate) :
    parseTimeString tz t d now = ⟨none, none⟩ ∨
    ∃ st en, parseTimeString tz t d now = ⟨some st, some en⟩ ∧ st.ms < en.ms := by
  cases t with
  | none => left; rfl
  | some s0 =>
    by_cases h0 : s0 = []
    · left
      simp [parseTimeString, h0]
    · simp only [parseTimeString, eq_false h0, if_false]
      cases hr : rangeSplit (jsTrim s0) with
      | none =>
        simp only [hr]
        cases hs : parseSingleTime tz (jsTrim s0) d now with
        | none => left; simp [hs]
        | some st =>
          right
          refine ⟨st, addHours st 1, by simp [hs], ?_⟩
          show st.ms < st.ms + 1 * 3600000
          omega
      | some pr =>
        obtain ⟨lft, rgt⟩ := pr
        simp only [hr]
        cases hl : parseSingleTime tz lft d now with
        | none =>
          cases hs : parseSingleTime tz (jsTrim s0) d now with
          | none => left; simp [hl, hs]
          | some st =>
            right
            refine ⟨st, addHours st 1, by simp [hl, hs], ?_⟩
            show st.ms < st.ms + 1 * 3600000
            omega
        | some st =>
          cases hrr : parseSingleTime tz rgt d now with
          | none =>
            right
            refine ⟨st, addHours st 1, by simp [hl, hrr], ?_⟩
            show st.ms < st.ms + 1 * 3600000
            omega
          | some en =>
            by_cases hcmp : st.ms < en.ms
            · right
              exact ⟨st, en, by simp [hl, hrr, hcmp], hcmp⟩
            · right
              refine ⟨st, addHours st 1, by simp [hl, hrr, hcmp], ?_⟩
              show st.ms < st.ms + 1 * 3600000
              omega

lemma parseTaskDateTime_cases (tz : Int) (task : Task) (R now : JSDate) :
    parseTaskDateTime tz task R now = ⟨none, none⟩ ∨
    ∃ st en, parseTaskDateTime tz task R now = ⟨some st, some en⟩ ∧ st.ms < en.ms := by
  unfold parseTaskDateTime
  cases parseDayString tz task.day R with
  | none => left; rfl
  | some d => exact parseTimeString_cases tz task.time d now

/-- C3: every non-null `parseTaskDateTime` result has `end` strictly
after `start`, and the two fields are always both null or both non-null
(no mixed result exists). -/
theorem resolved_interval_invariant (tz : Int) (task : Task) (R now : JSDate) :
    parseTaskDateTime tz task R now = ⟨none, none⟩ ∨
    ∃ st en, parseTaskDateTime tz task R now = ⟨some st, some en⟩ ∧ st.ms < en.ms :=
  parseTaskDateTime_cases tz task R now

/-- C4: `parseTaskDateTime` is a total function for every task (arbitrary
`day` string, `time` null/missing/arbitrary, `notes` irrelevant) and
reference date — the embedding of the whole call tree is a Lean `def`,
total by construction, which is the shallow-embedding rendering of
"terminates normally and never throws" (the only source constructs that
could raise, the date-fns `parse` calls, are total on string inputs and
additionally wrapped in `try`/`catch` by the source) — and every failure
is communicated solely through the `{null, null}` result. -/
theorem total_null_failure (tz : Int) (task : Task) (R now : JSDate) :
    parseTaskDateTime tz task R now = ⟨none, none⟩ ∨
    ∃ st en, parseTaskDateTime tz task R now = ⟨some st, some en⟩ := by
  rcases parseTaskDateTime_cases tz task R now with h | ⟨st, en, h, _⟩
  · left
    exact h
  · right
    exact ⟨st, en, h⟩

/-!
### C7 and C10: the export handler's event list
-/

lemma foldl_push_eq (tz : Int) (R now : JSDate) (l : List Task) :
    ∀ acc : List IcsEvent,
      l.foldl (pushEvent tz R now) acc = acc ++ l.filterMap (taskToEvent tz R now) := by
  induction l with
  | nil => intro acc; simp
  | cons x t ih =>
    intro acc
    cases h : taskToEvent tz R now x with
    | none => simp [List.filterMap_cons, h, ih, pushEvent]
    | some e => simp [List.filterMap_cons, h, ih, pushEvent]

lemma length_filterMap_countP {α β : Type} (f : α → Option β) (l : List α) :
    (l.filterMap f).length = l.countP (fun x => (f x).isSome) := by
  induction l with
  | nil => rfl
  | cons x t ih =>
    cases h : f x with
    | none => simp [List.filterMap_cons, List.countP_cons, h, ih]
    | some e => simp [List.filterMap_cons, List.countP_cons, h, ih]

/-- The export loop produces an event for a task exactly when the task's
date-time resolution produced a (non-null) start. -/
lemma taskToEvent_isSome (tz : Int) (R now : JSDate) (t : Task) :
    (taskToEvent tz R now t).isSome = (parseTaskDateTime tz t R now).start.isSome := by
  rcases parseTaskDateTime_cases tz t R now with h | ⟨st, en, h, _⟩
  · simp [taskToEvent, h]
  · simp [taskToEvent, h, formatForICS]

/-- C10: the export handler builds the serializer's event list as an
in-order filter-map over the stored task list (the `forEach`/`push` loop
of export-schedule/route.ts lines 36-57 equals `List.filterMap`), so
surviving entries keep exactly the relative order of their tasks. -/
theorem export_in_order (tz : Int) (R now : JSDate) (tasks : List Task) :
    buildEvents tz R now tasks = tasks.filterMap (taskToEvent tz R now) := by
  unfold buildEvents
  rw [foldl_push_eq tz R now tasks]
  simp

/-- C7: a task with an unparseable day string resolves to `{null, null}`
(the time is never consulted: `parseTaskDateTime` returns before any time
parsing), and such per-task failures are non-fatal — the export yields
exactly one calendar entry per task whose resolution succeeded. -/
theorem unparseable_day_skip (tz : Int) (R now : JSDate) :
    (∀ task : Task, parseDayString tz task.day R = none →
        parseTaskDateTime tz task R now = ⟨none, none⟩) ∧
    (∀ tasks : List Task, (buildEvents tz R now tasks).length =
        tasks.countP (fun t => (parseTaskDateTime tz t R now).start.isSome)) := by
  constructor
  · intro task h
    simp [parseTaskDateTime, h]
  · intro tasks
    unfold buildEvents
    rw [foldl_push_eq tz R now tasks, List.nil_append,
      length_filterMap_countP]
    refine List.countP_congr (fun t _ => ?_)
    rw [taskToEvent_isSome tz R now t]

/-- A task whose day is `"Blursday"` (unparseable). -/
def blursdayTask : Task :=
  ⟨S "t3", S "c3", S "Blursday", some (S "9:00 AM"), false, none⟩

/-- Five tasks of which exactly two (`"Blursday"`, `"someday"`) have
unparseable day strings. -/
def demoTasks : List Task :=
  [⟨S "t1", S "c1", S "monday", some (S "9:00 AM"), false, none⟩,
   ⟨S "t2", S "c2", S "2025-04-12", some (S "14:30"), false, some (S "note")⟩,
   blursdayTask,
   ⟨S "t4", S "c4", S "someday", some (S "10:00 AM - 11:00 AM"), false, none⟩,
   ⟨S "t5", S "c5", S "tomorrow", some (S "9:00 AM - 10:30 AM"), false, none⟩]

/-- Witness for C7: `"Blursday"` resolves to `{null, null}`, and the demo
batch of 5 tasks with 2 unparseable days yields exactly 3 entries. -/
theorem unparseable_day_skip_w :
    parseTaskDateTime 0 blursdayTask ⟨0⟩ ⟨0⟩ = ⟨none, none⟩ ∧
    (buildEvents 0 ⟨0⟩ ⟨0⟩ demoTasks).length = 3 :=
  ⟨(unparseable_day_skip 0 ⟨0⟩ ⟨0⟩).1 blursdayTask (by decide),
   ((unparseable_day_skip 0 ⟨0⟩ ⟨0⟩).2 demoTasks).trans (by decide)⟩

/-!
### C8: the ICS field array
-/

/-- C8: `formatForICS` maps null (or invalid, which the model folds into
`none`) to null, and a valid date to the five-element array of its UTC
fields with the month 1-indexed — straight UTC field extraction, no
timezone-offset conversion of the locally-resolved wall clock.  The last
conjunct evaluates the spec's own example 2025-04-12T09:00Z. -/
theorem ics_utc_fields :
    formatForICS none = none ∧
    (∀ d : JSDate, formatForICS (some d) =
        some [getUTCFullYear d, getUTCMonth d + 1, getUTCDate d,
              getUTCHours d, getUTCMinutes d]) ∧
    formatForICS (some ⟨1744448400000⟩) = some [2025, 4, 12, 9, 0] :=
  ⟨rfl, fun _ => rfl, by decide⟩

end ScheduleGenie
